import Mathlib

/-!
Verification development for the gdbp training/evaluation core
(`src/gdbp/gdbp_base.py`).

The Python source is shallowly embedded below.  Conventions:

* JAX arrays that matter to the claims are 2-d real matrices,
  `Mat := List (List ℝ)` (one inner list per row / symbol).
* The opaque physical-layer module (commplax `layer.Serial` stack) is an
  external collaborator; it is embedded as an abstract function value of
  type `ModuleF` (apply) resp. `ModuleObj` (init + apply), exactly the
  `apply(variables, signal) -> (signal, new_state)` contract the spec gives.
* Python dicts of parameters are association lists `Dict V`.
* The global NumPy RNG used by the augmentations is made explicit: the
  random draws consumed by `apply_transform` / `apply_transform1` are
  passed in as a `Draws` record (one per training iteration).
* `jax.value_and_grad` is an external oracle: it is passed in as a
  function argument `vag`; none of the proved statements depend on the
  gradients it returns.
* Gradient flow itself (claim C1) is embedded separately by forward-mode
  dual numbers `Dl`, with one dual operation per jnp primitive used in
  the tail of `loss_fn`.
-/

/-- `epsilon` default of `l2_normalize` in the source (1e-12). -/
def epsilon : ℝ := 1e-12

/-- Real-valued 2-d array (list of rows). -/
abbrev Mat : Type := List (List ℝ)

/-- Association-list embedding of a (flattened) Python dict. -/
abbrev Dict (V : Type) : Type := List (String × V)

/-- Squared row sum `jnp.sum(jnp.square(row))` used by `l2_normalize`. -/
def sqsum (row : List ℝ) : ℝ := (row.map (fun v => v ^ 2)).sum

/-- `l2_normalize(x, axis=1)` from the source (lines 136-139), as called by
`negative_cosine_similarity`: per row, `x / sqrt(maximum(sum(square(x)), eps))`. -/
noncomputable def l2_normalize (x : Mat) : Mat :=
  x.map (fun row =>
    let square_sum := sqsum row
    let x_inv_norm := Real.sqrt (max square_sum epsilon)
    row.map (fun v => v / x_inv_norm))

/-- The per-row action of `l2_normalize` (proof-side name for the row
function the source maps over axis 1). -/
noncomputable def normRow (row : List ℝ) : List ℝ :=
  row.map (fun v => v / Real.sqrt (max (sqsum row) epsilon))

/-- `jnp.mean` of a 1-d array. -/
noncomputable def listMean (l : List ℝ) : ℝ := l.sum / l.length

/-- `negative_cosine_similarity(p, z)` from the source (lines 141-144). -/
noncomputable def negative_cosine_similarity (p z : Mat) : ℝ :=
  let p := l2_normalize p
  let z := l2_normalize z;
  -(listMean (List.zipWith (fun pr zr => (List.zipWith (fun a b => a * b) pr zr).sum) p z))

/-- Multiply row `i` of a matrix by the scalar `c` (spec-side apparatus used to
state the rescaling-invariance claim C5; not a source function). -/
def scaleRow : Mat → ℕ → ℝ → Mat
  | [], _, _ => []
  | row :: rest, 0, c => row.map (fun v => c * v) :: rest
  | row :: rest, i + 1, c => row :: scaleRow rest i c

/-- `jnp.abs` applied elementwise to a (real-modelled) 2-d array. -/
def matAbs (m : Mat) : Mat := m.map (fun row => row.map (fun v => |v|))

/-- Value-level semantics of `jax.lax.stop_gradient`: the identity on values.
(Its effect on derivatives is modelled in the dual-number embedding below.) -/
def stop_gradient (m : Mat) : Mat := m

/-- `apply_transform` (lines 146-150) with the two global-RNG draws made
explicit: `r` is the `np.random.rand()` draw, `scale` the uniform draw. -/
noncomputable def apply_transform (r scale : ℝ) (p : ℝ) (x : Mat) : Mat :=
  if r < p then x.map (fun row => row.map (fun v => v * scale)) else x

/-- `apply_transform1` (lines 152-156) with the RNG draws made explicit. -/
noncomputable def apply_transform1 (r shift : ℝ) (p : ℝ) (x : Mat) : Mat :=
  if r < p then x.map (fun row => row.map (fun v => v + shift)) else x

/-- Validity window `t` of a commplax signal: `[start, stop)` with `stop`
a negative offset from the end. -/
structure SigTime where
  start : ℤ
  stop : ℤ

/-- commplax `core.Signal`: value plus validity window. -/
structure Signal where
  val : Mat
  t : SigTime

/-- `core.Signal(y)` on a raw array. -/
def mkSignal (y : Mat) : Signal := ⟨y, ⟨0, 0⟩⟩

/-- The variables dict `{'params': …, 'aux_inputs': …, 'const': …, **state}`
passed to `module.apply`. -/
structure Vars (V C S : Type) where
  params : Dict V
  aux_inputs : Dict Mat
  const : C
  state : S

/-- The opaque module's `apply` contract. -/
abbrev ModuleF (V C S : Type) : Type :=
  Vars V C S → Signal → Signal × S

/-- The explicit per-iteration random draws consumed by the two
augmentations inside `loss_fn`. -/
structure Draws where
  r1 : ℝ
  scale : ℝ
  r2 : ℝ
  shift : ℝ

/-- Modelled from the spec: `commplax.util.dict_merge` (not under `src/`);
the spec says merging trainable+static params is a read-only view of the
union of two disjoint dicts.  Lookup prefers the left argument. -/
def dict_merge {V : Type} (a b : Dict V) : Dict V := a ++ b

/-- Modelled from the spec: `commplax.util.dict_split` (not under `src/`);
the spec says parameters are "partitioned at initialization into trainable
and static subsets by explicit key-path membership" with the two subsets
disjoint and jointly exhaustive.  Returns (matching = static, rest). -/
def dict_split {V : Type} (d : Dict V) (keys : List String) : Dict V × Dict V :=
  (d.filter (fun kv => kv.1 ∈ keys), d.filter (fun kv => kv.1 ∉ keys))

/-- Modelled from the spec: `commplax.core.dict_replace` (not under `src/`);
"inject target into auxiliary-state mapping under a fixed key" — replaces
the value at every existing occurrence of the key. -/
def dict_replace {V : Type} (d : Dict V) (k : String) (v : V) : Dict V :=
  d.map (fun kv => if kv.1 = k then (k, v) else kv)

/-- `loss_fn` from the source (lines 181-209).  The module, and the RNG
draws of the two augmentations, are explicit arguments; everything else is
a line-by-line translation.  Note that the value bound to
`z_transformed1_real1` (the `jax.lax.stop_gradient` result) is *unused*,
exactly as in the source, which passes `z_transformed_real1` to
`negative_cosine_similarity`. -/
noncomputable def loss_fn {V C S : Type} (module : ModuleF V C S)
    (params : Dict V) (state : S) (y x : Mat) (aux : Dict Mat) (const : C)
    (sparams : Dict V) (dw : Draws) : ℝ × S :=
  let params := dict_merge params sparams
  let y_transformed := apply_transform dw.r1 dw.scale (1 / 2) y
  let y_transformed1 := apply_transform1 dw.r2 dw.shift (1 / 2) y
  let zs := module ⟨params, aux, const, state⟩ (mkSignal y)
  let z_original := zs.1
  let updated_state := zs.2
  let z_transformed := (module ⟨params, aux, const, state⟩ (mkSignal y_transformed)).1
  let z_transformed1 := (module ⟨params, aux, const, state⟩ (mkSignal y_transformed1)).1
  let _z_original_real := matAbs z_original.val
  let z_transformed_real := matAbs z_transformed.val
  let z_transformed_real1 := matAbs z_transformed1.val
  let _z_transformed1_real1 := stop_gradient z_transformed_real1
  let contrastive_loss := negative_cosine_similarity z_transformed_real z_transformed_real1
  (contrastive_loss, updated_state)

/-- Optimizer boundary (optax chain): `init` and `update`, treated as an
external black-box stateful transform per the spec. -/
structure Optimizer (V OS : Type) where
  init : Dict V → OS
  update : Dict V → OS → Dict V → Dict V × OS

/-- `jax.value_and_grad(compute_loss, has_aux=True)` oracle type. -/
abbrev ValueAndGrad (V S : Type) : Type :=
  (Dict V → ℝ × S) → Dict V → (ℝ × S) × Dict V

/-- Modelled from the spec: `optax.apply_updates` (not under `src/`);
"updates are applied additively to params by the loop".  Keys of `params`
are preserved; updates for absent keys are ignored. -/
def apply_updates {V : Type} [Add V] (params updates : Dict V) : Dict V :=
  params.map (fun kv =>
    match updates.lookup kv.1 with
    | some g => (kv.1, kv.2 + g)
    | none => kv)

/-- `update_step` from the source (lines 230-242). -/
noncomputable def update_step {V C S OS : Type} [Add V]
    (vag : ValueAndGrad V S) (module : ModuleF V C S) (optimizer : Optimizer V OS)
    (opt_state : OS) (params : Dict V) (module_state : S) (y x : Mat)
    (aux : Dict Mat) (const : C) (sparams : Dict V) (dw : Draws) :
    ℝ × OS × S × Dict V :=
  let compute_loss := fun params =>
    loss_fn module params module_state y x aux const sparams dw
  let res := vag compute_loss params
  let loss := res.1.1
  let new_module_state := res.1.2
  let grads := res.2
  let upd := optimizer.update grads opt_state params
  let updates := upd.1
  let new_opt_state := upd.2
  let new_params := apply_updates params updates
  (loss, new_opt_state, new_module_state, new_params)

/-- The dataset boundary `gdat.Input`: `{y, x, w0}`. -/
structure Input where
  y : Mat
  x : Mat
  w0 : ℝ

/-- Modelled from the spec: number of frames produced by
`commplax.op.frame_gen` / first component of `commplax.op.frame_shape`
(not under `src/`): windows of length `flen`, stride `fstep`, over a
signal of length `N`. -/
def frame_count (N flen fstep : ℕ) : ℕ :=
  if flen ≤ N then (N - flen) / fstep + 1 else 0

/-- Modelled from the spec: `commplax.op.frame_gen` (not under `src/`):
the lazy sequence of windows `xs[i*fstep : i*fstep + flen]`. -/
def frame_gen {α : Type} (xs : List α) (flen fstep : ℕ) : List (List α) :=
  (List.range (frame_count xs.length flen fstep)).map
    (fun i => (xs.drop (i * fstep)).take flen)

/-- `get_train_batch` from the source (lines 244-254). -/
def get_train_batch (ds : Input) (batchsize overlaps sps : ℕ) :
    ℕ × List (Mat × Mat) :=
  let flen := batchsize + overlaps
  let fstep := batchsize
  let ds_y := frame_gen ds.y (flen * sps) (fstep * sps)
  let ds_x := frame_gen ds.x flen fstep
  let n_batches := frame_count ds.x.length flen fstep
  (n_batches, List.zip ds_y ds_x)

/-- The `Model` namedtuple: `(module, initvar, overlaps, name)` with
`initvar = (params, state, aux, const, sparams)`. -/
structure ModelT (V C S : Type) where
  module : ModuleF V C S
  initvar : Dict V × S × Dict Mat × C × Dict V
  overlaps : ℤ
  name : String

/-- The `for`/`yield` loop body of `train` (lines 274-279): iterate over the
remaining batches, stop once the enumeration index reaches `n_iter`,
thread `aux`, optimizer state, module state and params forward, and emit
`(loss, params, module_state)` per processed batch. -/
noncomputable def trainLoop {V C S OS : Type} [Add V]
    (vag : ValueAndGrad V S) (module : ModuleF V C S) (optimizer : Optimizer V OS)
    (sparams : Dict V) (const : C) (draws : ℕ → Draws) :
    ℕ → ℕ → List (Mat × Mat) → Dict Mat → OS → S → Dict V →
    List (ℝ × Dict V × S)
  | _, _, [], _, _, _, _ => []
  | i, n_iter, (y, x) :: rest, aux, opt_state, module_state, params =>
    if n_iter ≤ i then []
    else
      let aux := dict_replace aux "truth" x
      let st := update_step vag module optimizer opt_state params module_state
        y x aux const sparams (draws i)
      (st.1, st.2.2.2, st.2.2.1) ::
        trainLoop vag module optimizer sparams const draws (i + 1) n_iter rest
          aux st.2.1 st.2.2.1 st.2.2.2

/-- `train` from the source (lines 256-279), as the finite list of emitted
`(loss, params, module_state)` progress tuples.  `get_train_batch` is
called with the source's default `sps = 2`; the nonnegative window overlap
stored in the model (`start - stop` with `start ≥ 0 ≥ stop`) is read back
as a natural number. -/
noncomputable def train {V C S OS : Type} [Add V]
    (vag : ValueAndGrad V S) (model : ModelT V C S) (data : Input)
    (batch_size : ℕ) (n_iter : Option ℕ) (optimizer : Optimizer V OS)
    (draws : ℕ → Draws) : List (ℝ × Dict V × S) :=
  let params := model.initvar.1
  let module_state := model.initvar.2.1
  let aux := model.initvar.2.2.1
  let const := model.initvar.2.2.2.1
  let sparams := model.initvar.2.2.2.2
  let opt_state := optimizer.init params
  let nb := get_train_batch data batch_size model.overlaps.toNat 2
  let n_batch := nb.1
  let batch_gen := nb.2
  let n_iter := match n_iter with
    | none => n_batch
    | some k => min k n_batch
  trainLoop vag model.module optimizer sparams const draws 0 n_iter batch_gen
    aux opt_state module_state params

/-- Python slice `xs[i:j]` with negative-index semantics (used by `test`
to slice the target to the output validity window `x[t.start:t.stop]`). -/
def pySlice {α : Type} (xs : List α) (i j : ℤ) : List α :=
  let n := xs.length
  let norm := fun (k : ℤ) => (min (if k < 0 then (n : ℤ) + k else k) (n : ℤ)).toNat
  ((xs.drop (norm i)).take (norm j - norm i))

/-- `test` from the source (lines 283-305).  The metric function is the
external black box `metric_fn(estimate, reference, scale, eval_range)`. -/
noncomputable def test {V C S M : Type} (model : ModelT V C S)
    (params : Option (Dict V)) (data : Input) (eval_range : ℤ × ℤ)
    (metric_fn : Mat → Mat → ℝ → ℤ × ℤ → M) : M × Signal :=
  let state := model.initvar.2.1
  let aux := model.initvar.2.2.1
  let const := model.initvar.2.2.2.1
  let sparams := model.initvar.2.2.2.2
  let aux := dict_replace aux "truth" data.x
  let params := match params with
    | none => model.initvar.1
    | some p => p
  let zz := model.module ⟨dict_merge params sparams, aux, const, state⟩
    (mkSignal data.y)
  let z := zz.1
  let metric := metric_fn z.val (pySlice data.x z.t.start z.t.stop)
    (Real.sqrt 10) eval_range
  (metric, z)

/-! ### Module construction and initialization (claims C7, C8) -/

/-- The MIMO train-mode switch: `True` in train mode, the
`cxopt.piecewise_constant([200000], [True, False])` step function in test
mode. -/
inductive MimoTrain where
  | const (b : Bool)
  | piecewise_constant (boundaries : List ℕ) (values : List Bool)

/-- The configuration record assembled by `make_base_module`; the actual
commplax layer stack built from it is an external collaborator. -/
structure BaseModule (IF : Type) where
  steps : ℕ
  dtaps : ℕ
  ntaps : ℕ
  rtaps : ℕ
  d_init : IF
  n_init : IF
  w0 : ℝ
  mode : String
  mimo_train : MimoTrain

/-- `_assert_taps` from the source (lines 59-63): Python `assert d % sps`
fails exactly when `d % sps = 0`. -/
def _assert_taps (dtaps ntaps rtaps sps : ℕ) : Except String Unit :=
  if dtaps % sps = 0 then
    Except.error ("dtaps must be odd number, got " ++ toString dtaps ++ " instead")
  else if ntaps % sps = 0 then
    Except.error ("ntaps must be odd number, got " ++ toString ntaps ++ " instead")
  else if rtaps % sps = 0 then
    Except.error ("rtaps must be odd number, got " ++ toString rtaps ++ " instead")
  else Except.ok ()

/-- `make_base_module` from the source (lines 19-56): tap assertion first,
then the mode dispatch (`ValueError` on anything except `'train'`/`'test'`),
then assembly of the layer-stack configuration. -/
def make_base_module {IF : Type} (steps dtaps ntaps rtaps : ℕ)
    (init_fn : IF × IF) (w0 : ℝ) (mode : String) :
    Except String (BaseModule IF) :=
  match _assert_taps dtaps ntaps rtaps 2 with
  | Except.error e => Except.error e
  | Except.ok _ =>
    if mode = "train" then
      Except.ok ⟨steps, dtaps, ntaps, rtaps, init_fn.1, init_fn.2, w0, mode,
        MimoTrain.const true⟩
    else if mode = "test" then
      Except.ok ⟨steps, dtaps, ntaps, rtaps, init_fn.1, init_fn.2, w0, mode,
        MimoTrain.piecewise_constant [200000] [true, false]⟩
    else
      Except.error ("invalid mode " ++ mode)

/-- The variable snapshot returned by the module's `init`. -/
structure InitVars (V C S : Type) where
  params : Dict V
  af_state : S
  aux_inputs : Dict Mat
  const : C

/-- The opaque module object: `init` (seeded reference forward pass) and
`apply`. -/
structure ModuleObj (V C S : Type) where
  init : ℕ → Signal → Signal × InitVars V C S
  apply : ModuleF V C S

/-- The `base_conf` dict splatted into `make_base_module` by `model_init`. -/
structure BaseConf (IF : Type) where
  steps : ℕ
  dtaps : ℕ
  ntaps : ℕ
  rtaps : ℕ
  init_fn : IF × IF
  mode : String

/-- `model_init` from the source (lines 96-112).  `sem` interprets the
assembled configuration as the external module object (flax/commplax
semantics); errors raised by `make_base_module` propagate. -/
def model_init {IF V C S : Type} (sem : BaseModule IF → ModuleObj V C S)
    (data : Input) (conf : BaseConf IF) (sparams_flatkeys : List String)
    (n_symbols sps : ℕ) (name : String) : Except String (ModelT V C S) :=
  match make_base_module conf.steps conf.dtaps conf.ntaps conf.rtaps
      conf.init_fn data.w0 conf.mode with
  | Except.error e => Except.error e
  | Except.ok bm =>
    let modObj := sem bm
    let y0 := data.y.take (n_symbols * sps)
    let rng0 := 0
    let zv := modObj.init rng0 (mkSignal y0)
    let z0 := zv.1
    let v0 := zv.2
    let ol := z0.t.start - z0.t.stop
    let spl := dict_split v0.params sparams_flatkeys
    let sparams := spl.1
    let params := spl.2
    Except.ok ⟨modObj.apply, (params, v0.af_state, v0.aux_inputs, v0.const, sparams),
      ol, name⟩

/-! ### Forward-mode dual-number embedding of the tail of `loss_fn`
(claim C1).  A `Dl` carries a value and the tangent (directional
derivative) with respect to one scalar parameter; each operation mirrors
the JVP rule of the corresponding jnp primitive. -/

/-- Dual number: value and tangent. -/
structure Dl where
  v : ℝ
  t : ℝ

/-- Derivative of `jnp.abs` on reals: `sign` (0 at 0, as in JAX). -/
noncomputable def dsign (x : ℝ) : ℝ :=
  if x < 0 then -1 else if x = 0 then 0 else 1

/-- `jnp.abs` on duals. -/
noncomputable def dabs (x : Dl) : Dl := ⟨|x.v|, dsign x.v * x.t⟩

/-- `jnp.square` on duals. -/
def dsquare (x : Dl) : Dl := ⟨x.v ^ 2, 2 * x.v * x.t⟩

/-- `jnp.sqrt` on duals (JVP `t / (2 sqrt v)`, valid away from 0). -/
noncomputable def dsqrt (x : Dl) : Dl :=
  ⟨Real.sqrt x.v, x.t / (2 * Real.sqrt x.v)⟩

/-- `jnp.maximum(x, c)` against a constant: the tangent flows from `x`
iff `c ≤ x` (JAX picks the first argument at ties). -/
noncomputable def dmaximum (x : Dl) (c : ℝ) : Dl :=
  ⟨max x.v c, if c ≤ x.v then x.t else 0⟩

/-- Division on duals (quotient rule). -/
noncomputable def ddiv (a b : Dl) : Dl :=
  ⟨a.v / b.v, (a.t * b.v - a.v * b.t) / b.v ^ 2⟩

/-- Multiplication on duals (product rule). -/
def dmul (a b : Dl) : Dl := ⟨a.v * b.v, a.t * b.v + a.v * b.t⟩

/-- `jnp.sum` on duals. -/
def dsum (l : List Dl) : Dl := ⟨(l.map Dl.v).sum, (l.map Dl.t).sum⟩

/-- `jnp.mean` on duals. -/
noncomputable def dmean (l : List Dl) : Dl :=
  ⟨(l.map Dl.v).sum / l.length, (l.map Dl.t).sum / l.length⟩

/-- Negation on duals. -/
def dneg (x : Dl) : Dl := ⟨-x.v, -x.t⟩

/-- `jax.lax.stop_gradient` on duals: keeps the value, kills the tangent. -/
def dstop_gradient (x : Dl) : Dl := ⟨x.v, 0⟩

/-- `l2_normalize(x, axis=1)` on dual matrices (lines 136-139). -/
noncomputable def dl2_normalize (x : List (List Dl)) : List (List Dl) :=
  x.map (fun row =>
    let square_sum := dsum (row.map dsquare)
    let x_inv_norm := dsqrt (dmaximum square_sum epsilon)
    row.map (fun e => ddiv e x_inv_norm))

/-- `negative_cosine_similarity(p, z)` on dual matrices (lines 141-144). -/
noncomputable def dnegative_cosine_similarity (p z : List (List Dl)) : Dl :=
  let p := dl2_normalize p
  let z := dl2_normalize z
  dneg (dmean (List.zipWith (fun pr zr => dsum (List.zipWith dmul pr zr)) p z))

/-- Elementwise `jnp.abs` on a dual matrix. -/
noncomputable def matDabs (m : List (List Dl)) : List (List Dl) :=
  m.map (fun row => row.map dabs)

/-- Elementwise `jax.lax.stop_gradient` on a dual matrix. -/
def matDstop (m : List (List Dl)) : List (List Dl) :=
  m.map (fun row => row.map dstop_gradient)

/-- Lines 202-209 of `loss_fn`, on the three module outputs (the values of
`z_original`, `z_transformed`, `z_transformed1`), in forward-mode AD.  As
in the source, the detached `z_transformed1_real1` is bound but *unused*:
the loss is computed from `z_transformed_real1`. -/
noncomputable def loss_fn_tail
    (z_original_val z_transformed_val z_transformed1_val : List (List Dl)) : Dl :=
  let _z_original_real := matDabs z_original_val
  let z_transformed_real := matDabs z_transformed_val
  let z_transformed_real1 := matDabs z_transformed1_val
  let _z_transformed1_real1 := matDstop z_transformed_real1
  dnegative_cosine_similarity z_transformed_real z_transformed_real1

/-- C1 failing input: output of the original forward pass (no tangent
from the parameter that only the second augmented view reaches). -/
def cexZO : List (List Dl) := [[⟨1, 0⟩, ⟨1, 0⟩]]

/-- C1 failing input: output of the first augmented view (no tangent). -/
def cexZT : List (List Dl) := [[⟨3, 0⟩, ⟨4, 0⟩]]

/-- C1 failing input: output of the second augmented view; its first
component carries unit tangent from a parameter reachable only through
this branch. -/
def cexZT1 : List (List Dl) := [[⟨4, 1⟩, ⟨3, 0⟩]]

/-! ### Concrete instances used by witness theorems -/

/-- A concrete module: bumps its integer state by one. -/
def cexModA : ModuleF ℚ Unit ℕ := fun v _ => (⟨[[1]], ⟨0, 0⟩⟩, v.state + 1)

/-- A concrete module agreeing with `cexModA` on all signal outputs and on
the full result at the one-row input, but with a different state update on
other inputs. -/
def cexModB : ModuleF ℚ Unit ℕ := fun v sig => (⟨[[1]], ⟨0, 0⟩⟩, v.state + sig.val.length)

/-- A concrete metric function. -/
def cexMetric : Mat → Mat → ℝ → ℤ × ℤ → ℚ := fun _ _ _ _ => 0

/-- A concrete model around `cexModA`. -/
def cexModel9 : ModelT ℚ Unit ℕ := ⟨cexModA, ([], 0, [], (), []), 0, "M"⟩

/-- A concrete dataset. -/
def cexData9 : Input := ⟨[[1]], [[1]], 0⟩

/-- A concrete `value_and_grad` oracle returning empty gradients. -/
def cexVag : ValueAndGrad ℚ ℕ := fun f p => (f p, [])

/-- A concrete optimizer: passes gradients through as updates, unit state. -/
def cexOpt : Optimizer ℚ Unit := ⟨fun _ => (), fun g s _ => (g, s)⟩

/-- A concrete stream of augmentation draws (draw 1 ≥ p = 1/2: no transform
fires). -/
def cexDraws : ℕ → Draws := fun _ => ⟨1, 1, 1, 1⟩

/-- A concrete dataset with 4 target symbols (8 input samples at sps 2). -/
def cexData4 : Input := ⟨List.replicate 8 [(0 : ℝ)], List.replicate 4 [(0 : ℝ)], 0⟩

/-- A concrete full parameter dict with one static key "a" and one
trainable key "b". -/
def cexV0 : Dict ℚ := [("a", 5), ("b", 7)]

/-- A concrete model whose initvar splits `cexV0` on static keys ["a"]. -/
def cexModel6 : ModelT ℚ Unit ℕ :=
  ⟨cexModA, ((dict_split cexV0 ["a"]).2, 0, [], (), (dict_split cexV0 ["a"]).1),
    0, "M"⟩

/-- A concrete module-semantics oracle whose reference forward pass reports
the validity window `[2, -3)` (start 2, stop offset -3). -/
def cexSem : BaseModule ℕ → ModuleObj ℚ Unit Unit :=
  fun _ => ⟨fun _ _ => (⟨[[1]], ⟨2, -3⟩⟩, ⟨[], (), [], ()⟩),
    fun _ _ => (⟨[[1]], ⟨2, -3⟩⟩, ())⟩

/-- A concrete base configuration with valid mode and odd taps. -/
def cexConf8 : BaseConf ℕ := ⟨3, 261, 41, 61, (0, 0), "train"⟩

/-- The configuration record `make_base_module` assembles from `cexConf8`. -/
def cexBm : BaseModule ℕ := ⟨3, 261, 41, 61, 0, 0, 0, "train", MimoTrain.const true⟩

/-- The model `model_init` produces from `cexSem`/`cexConf8`/`cexData9`. -/
def cexModel8 : ModelT ℚ Unit Unit :=
  ⟨fun _ _ => (⟨[[1]], ⟨2, -3⟩⟩, ()), ([], (), [], (), []), 5, "M"⟩

/-! ## Theorems -/

theorem ncs_comm (p z : Mat) :
    negative_cosine_similarity p z = negative_cosine_similarity z p := by
  have inner : ∀ x y : List ℝ,
      (List.zipWith (fun a b => a * b) x y).sum =
        (List.zipWith (fun a b => a * b) y x).sum := by
    intro x y
    rw [List.zipWith_comm_of_comm (fun a b => a * b) mul_comm]
  show -(listMean (List.zipWith (fun pr zr => (List.zipWith (fun a b => a * b) pr zr).sum)
      (l2_normalize p) (l2_normalize z))) =
    -(listMean (List.zipWith (fun pr zr => (List.zipWith (fun a b => a * b) pr zr).sum)
      (l2_normalize z) (l2_normalize p)))
  rw [List.zipWith_comm_of_comm _ inner]

/-- Claim C10: `negative_cosine_similarity` is symmetric in its two
arguments: both inputs are L2-normalized identically and the elementwise
product commutes, so `negative_cosine_similarity p z =
negative_cosine_similarity z p` for all matrices. -/
theorem negative_cosine_similarity_symm (p z : Mat) :
    negative_cosine_similarity p z = negative_cosine_similarity z p :=
  ncs_comm p z

/-- Claim C2: `loss_fn` performs its three forward passes against the same
incoming module state, and the state it returns is exactly the updated
state of the original (non-augmented) forward pass; the states produced by
the two augmented-view passes are discarded: any module that agrees on
signal outputs everywhere and on the full result at the original input
yields the identical `loss_fn` result, whatever its state updates on the
augmented views are. -/
theorem loss_fn_state_from_original {V C S : Type} (module : ModuleF V C S)
    (params : Dict V) (state : S) (y x : Mat) (aux : Dict Mat) (const : C)
    (sparams : Dict V) (dw : Draws) :
    ((loss_fn module params state y x aux const sparams dw).2 =
      (module ⟨dict_merge params sparams, aux, const, state⟩ (mkSignal y)).2)
    ∧ (∀ module' : ModuleF V C S,
        (∀ vv sig, (module' vv sig).1 = (module vv sig).1) →
        (∀ vv, module' vv (mkSignal y) = module vv (mkSignal y)) →
        loss_fn module' params state y x aux const sparams dw =
          loss_fn module params state y x aux const sparams dw) := by
  constructor
  · rfl
  · intro module' h1 h2
    simp only [loss_fn, h1, h2]

/-- Witness for C2 at a concrete instance: `cexModB` agrees with `cexModA`
on signal outputs and at the original input, so `loss_fn` cannot tell them
apart. -/
theorem loss_fn_state_from_original_witness :
    loss_fn cexModB [] 0 [[1]] [[1]] [] () [] ⟨1, 1, 1, 1⟩ =
      loss_fn cexModA [] 0 [[1]] [[1]] [] () [] ⟨1, 1, 1, 1⟩ :=
  (loss_fn_state_from_original cexModA [] 0 [[1]] [[1]] [] () [] ⟨1, 1, 1, 1⟩).2
    cexModB (fun _ _ => rfl) (fun _ => rfl)

/-- Claim C7: `make_base_module` rejects eagerly: any mode string other
than "train"/"test", or any even tap count among dtaps/ntaps/rtaps,
produces an error (and hence no module value at all). -/
theorem make_base_module_rejects {IF : Type} (steps dtaps ntaps rtaps : ℕ)
    (init_fn : IF × IF) (w0 : ℝ) (mode : String)
    (h : (mode ≠ "train" ∧ mode ≠ "test") ∨ dtaps % 2 = 0 ∨ ntaps % 2 = 0 ∨
      rtaps % 2 = 0) :
    ∃ e, make_base_module steps dtaps ntaps rtaps init_fn w0 mode =
      Except.error e := by
  unfold make_base_module _assert_taps
  by_cases hd : dtaps % 2 = 0
  · simp [hd]
  · by_cases hn : ntaps % 2 = 0
    · simp [hd, hn]
    · by_cases hr : rtaps % 2 = 0
      · simp [hd, hn, hr]
      · rcases h with ⟨hm1, hm2⟩ | hc | hc | hc
        · simp [hd, hn, hr, hm1, hm2]
        · exact absurd hc hd
        · exact absurd hc hn
        · exact absurd hc hr

/-- Witness for C7: the invalid mode string "eval" with odd taps is
rejected. -/
theorem make_base_module_rejects_witness :
    ∃ e, make_base_module 3 261 41 61 ((0, 0) : ℕ × ℕ) 0 "eval" =
      Except.error e :=
  make_base_module_rejects 3 261 41 61 (0, 0) 0 "eval"
    (Or.inl ⟨by decide, by decide⟩)

/-- Claim C8: the overlap stored in the model by `model_init` equals the
absolute difference between the reference output's validity-window start
and its (nonpositive) stop offset — the source computes `start - stop`,
which equals the absolute value whenever `stop ≤ 0 ≤ start`. -/
theorem model_init_overlap {IF V C S : Type}
    (sem : BaseModule IF → ModuleObj V C S) (data : Input) (conf : BaseConf IF)
    (fk : List String) (n_symbols sps : ℕ) (nm : String) (bm : BaseModule IF)
    (m : ModelT V C S)
    (hbm : make_base_module conf.steps conf.dtaps conf.ntaps conf.rtaps
      conf.init_fn data.w0 conf.mode = Except.ok bm)
    (hstart : 0 ≤ ((sem bm).init 0 (mkSignal (data.y.take (n_symbols * sps)))).1.t.start)
    (hstop : ((sem bm).init 0 (mkSignal (data.y.take (n_symbols * sps)))).1.t.stop ≤ 0)
    (hm : model_init sem data conf fk n_symbols sps nm = Except.ok m) :
    m.overlaps =
      |((sem bm).init 0 (mkSignal (data.y.take (n_symbols * sps)))).1.t.start -
        ((sem bm).init 0 (mkSignal (data.y.take (n_symbols * sps)))).1.t.stop| := by
  unfold model_init at hm
  rw [hbm] at hm
  injection hm with h3
  rw [← h3]
  exact (abs_of_nonneg (sub_nonneg.mpr (hstop.trans hstart))).symm

/-- Witness for C8 at the concrete semantics `cexSem`: window `[2, -3)`
gives stored overlap `5 = |2 - (-3)|`. -/
theorem model_init_overlap_witness :
    cexModel8.overlaps =
      |((cexSem cexBm).init 0 (mkSignal (cexData9.y.take (4000 * 2)))).1.t.start -
        ((cexSem cexBm).init 0 (mkSignal (cexData9.y.take (4000 * 2)))).1.t.stop| :=
  model_init_overlap cexSem cexData9 cexConf8 [] 4000 2 "M" cexBm cexModel8
    rfl (by decide) (by decide) rfl

/-- Claim C9: the evaluation path runs the module exactly once on the whole
signal, slices the target to the output validity window (Python slice
semantics, negative stop meaning offset from the end), passes the
caller-specified evaluation sub-range through to the external metric
function, returns `(metric, full output signal)`, discards the forward
pass's state update (any module agreeing on signal outputs gives the same
result), and substitutes the model's initial parameters when `params` is
`None`. -/
theorem test_spec {V C S M : Type} (model : ModelT V C S) (ps : Option (Dict V))
    (data : Input) (er : ℤ × ℤ) (mf : Mat → Mat → ℝ → ℤ × ℤ → M) :
    (test model none data er mf = test model (some model.initvar.1) data er mf)
    ∧ ((test model ps data er mf).2 =
        (model.module
          ⟨dict_merge (match ps with | none => model.initvar.1 | some p => p)
              model.initvar.2.2.2.2,
            dict_replace model.initvar.2.2.1 "truth" data.x,
            model.initvar.2.2.2.1, model.initvar.2.1⟩
          (mkSignal data.y)).1)
    ∧ ((test model ps data er mf).1 =
        mf (test model ps data er mf).2.val
          (pySlice data.x (test model ps data er mf).2.t.start
            (test model ps data er mf).2.t.stop)
          (Real.sqrt 10) er)
    ∧ (∀ module' : ModuleF V C S,
        (∀ vv sig, (module' vv sig).1 = (model.module vv sig).1) →
        test ⟨module', model.initvar, model.overlaps, model.name⟩ ps data er mf
          = test model ps data er mf) := by
  refine ⟨rfl, rfl, rfl, ?_⟩
  intro module' h1
  simp only [test, h1]

/-- Witness for C9: a module with a different state update than `cexModA`
but the same signal outputs yields the identical `test` result. -/
theorem test_spec_witness :
    test ⟨cexModB, cexModel9.initvar, cexModel9.overlaps, cexModel9.name⟩ none
        cexData9 (0, 0) cexMetric =
      test cexModel9 none cexData9 (0, 0) cexMetric :=
  (test_spec cexModel9 none cexData9 (0, 0) cexMetric).2.2.2 cexModB
    (fun _ _ => rfl)

/-! ### Batching lemmas (claims C3, C4) -/

theorem nat_mul_sub (k a b : ℕ) : k * (a - b) = k * a - k * b := by
  rcases Nat.le_total b a with h | h
  · have h1 : k * (a - b) + k * b = k * a := by rw [← Nat.mul_add, Nat.sub_add_cancel h]
    omega
  · have h1 : a - b = 0 := Nat.sub_eq_zero_of_le h
    have h2 : k * a ≤ k * b := Nat.mul_le_mul_left k h
    rw [h1, Nat.mul_zero]
    omega

theorem frame_count_eq (L B O : ℕ) (hB : 0 < B) :
    frame_count L (B + O) B = (L - O) / B := by
  unfold frame_count
  by_cases h : B + O ≤ L
  · rw [if_pos h]
    have hBO : B ≤ L - O := by omega
    have h1 : L - (B + O) = L - O - B := by omega
    have h2 := Nat.add_div_right (L - O - B) hB
    rw [Nat.sub_add_cancel hBO] at h2
    rw [h1, h2]
  · rw [if_neg h]
    have hlt : L - O < B := by omega
    exact (Nat.div_eq_of_lt hlt).symm

theorem frame_count_scale (L flen fstep sps : ℕ) (hsps : 0 < sps) :
    frame_count (sps * L) (flen * sps) (fstep * sps) = frame_count L flen fstep := by
  unfold frame_count
  have hiff : flen * sps ≤ sps * L ↔ flen ≤ L := by
    rw [mul_comm flen sps]
    constructor
    · intro h
      exact Nat.le_of_mul_le_mul_left h hsps
    · intro h
      exact Nat.mul_le_mul_left sps h
  by_cases h : flen ≤ L
  · rw [if_pos (hiff.mpr h), if_pos h]
    have h2 : sps * L - flen * sps = sps * (L - flen) := by
      rw [mul_comm flen sps]
      exact (nat_mul_sub sps L flen).symm
    rw [h2, mul_comm fstep sps, Nat.mul_div_mul_left _ _ hsps]
  · rw [if_neg (fun hc => h (hiff.mp hc)), if_neg h]

theorem frame_gen_length {α : Type} (xs : List α) (flen fstep : ℕ) :
    (frame_gen xs flen fstep).length = frame_count xs.length flen fstep := by
  simp [frame_gen]

theorem frame_gen_getD {α : Type} (xs : List α) (flen fstep i : ℕ)
    (hi : i < frame_count xs.length flen fstep) :
    (frame_gen xs flen fstep).getD i [] = (xs.drop (i * fstep)).take flen := by
  have hlen : i < (frame_gen xs flen fstep).length := by
    simpa [frame_gen] using hi
  rw [List.getD_eq_getElem _ _ hlen]
  simp [frame_gen]

theorem zip_getD {α β : Type} (a : List α) (b : List β) (i : ℕ) (da : α) (db : β)
    (ha : i < a.length) (hb : i < b.length) :
    (a.zip b).getD i (da, db) = (a.getD i da, b.getD i db) := by
  have h : i < (a.zip b).length := by
    rw [List.length_zip]
    omega
  rw [List.getD_eq_getElem _ _ h, List.getD_eq_getElem _ _ ha,
    List.getD_eq_getElem _ _ hb]
  simp

/-- Claim C3: for a target of length `L = x.length` (input sampled at
`sps` times the symbol rate), `get_train_batch` produces exactly
`(L - O) / B` batches; each batch's input view has length `(B + O) * sps`
and its target view length `B + O`; consecutive target windows stride by
`B` and therefore share exactly `O` samples. -/
theorem get_train_batch_spec (y x : Mat) (w0 : ℝ) (B O sps : ℕ)
    (hB : 0 < B) (hsps : 0 < sps) (hlen : y.length = sps * x.length) :
    ((get_train_batch ⟨y, x, w0⟩ B O sps).1 = (x.length - O) / B)
    ∧ ((get_train_batch ⟨y, x, w0⟩ B O sps).2.length = (x.length - O) / B)
    ∧ (∀ i, i < (x.length - O) / B →
        ((get_train_batch ⟨y, x, w0⟩ B O sps).2.getD i ([], [])).1.length =
            (B + O) * sps
          ∧ ((get_train_batch ⟨y, x, w0⟩ B O sps).2.getD i ([], [])).2.length =
            B + O)
    ∧ (∀ i, i + 1 < (x.length - O) / B →
        ((get_train_batch ⟨y, x, w0⟩ B O sps).2.getD i ([], [])).2.drop B =
          ((get_train_batch ⟨y, x, w0⟩ B O sps).2.getD (i + 1) ([], [])).2.take O) := by
  have hcx : frame_count x.length (B + O) B = (x.length - O) / B :=
    frame_count_eq _ _ _ hB
  have hcy : frame_count y.length ((B + O) * sps) (B * sps) = (x.length - O) / B := by
    rw [hlen, frame_count_scale _ _ _ _ hsps, hcx]
  have hylen : ∀ i, i < (x.length - O) / B →
      i < (frame_gen y ((B + O) * sps) (B * sps)).length := by
    intro i hi
    rw [frame_gen_length, hcy]
    exact hi
  have hxlen : ∀ i, i < (x.length - O) / B →
      i < (frame_gen x (B + O) B).length := by
    intro i hi
    rw [frame_gen_length, hcx]
    exact hi
  have key : ∀ i, i < (x.length - O) / B → i * B + (B + O) ≤ x.length := by
    intro i hi
    have h1 : i + 1 ≤ (x.length - O) / B := hi
    have h2 : (i + 1) * B ≤ ((x.length - O) / B) * B := Nat.mul_le_mul_right B h1
    have h3 : ((x.length - O) / B) * B ≤ x.length - O := Nat.div_mul_le_self _ _
    have h4 : (i + 1) * B = i * B + B := by ring
    omega
  refine ⟨hcx, ?_, ?_, ?_⟩
  · show (List.zip (frame_gen y ((B + O) * sps) (B * sps))
      (frame_gen x (B + O) B)).length = (x.length - O) / B
    rw [List.length_zip, frame_gen_length, frame_gen_length, hcx, hcy, min_self]
  · intro i hi
    have hz := zip_getD (frame_gen y ((B + O) * sps) (B * sps))
      (frame_gen x (B + O) B) i [] [] (hylen i hi) (hxlen i hi)
    have hgy := frame_gen_getD y ((B + O) * sps) (B * sps) i
      (by rw [hcy]; exact hi)
    have hgx := frame_gen_getD x (B + O) B i (by rw [hcx]; exact hi)
    constructor
    · show ((List.zip (frame_gen y ((B + O) * sps) (B * sps))
        (frame_gen x (B + O) B)).getD i ([], [])).1.length = (B + O) * sps
      rw [hz]
      show ((frame_gen y ((B + O) * sps) (B * sps)).getD i []).length = (B + O) * sps
      rw [hgy, List.length_take, List.length_drop]
      have keyy : i * (B * sps) + (B + O) * sps ≤ y.length := by
        rw [hlen]
        calc i * (B * sps) + (B + O) * sps = (i * B + (B + O)) * sps := by ring
          _ ≤ x.length * sps := Nat.mul_le_mul_right sps (key i hi)
          _ = sps * x.length := by ring
      omega
    · show ((List.zip (frame_gen y ((B + O) * sps) (B * sps))
        (frame_gen x (B + O) B)).getD i ([], [])).2.length = B + O
      rw [hz]
      show ((frame_gen x (B + O) B).getD i []).length = B + O
      rw [hgx, List.length_take, List.length_drop]
      have := key i hi
      omega
  · intro i hi
    have hi0 : i < (x.length - O) / B := by omega
    have hi1 : i + 1 < (x.length - O) / B := hi
    have hz0 := zip_getD (frame_gen y ((B + O) * sps) (B * sps))
      (frame_gen x (B + O) B) i [] [] (hylen i hi0) (hxlen i hi0)
    have hz1 := zip_getD (frame_gen y ((B + O) * sps) (B * sps))
      (frame_gen x (B + O) B) (i + 1) [] [] (hylen (i + 1) hi1) (hxlen (i + 1) hi1)
    have hgx0 := frame_gen_getD x (B + O) B i (by rw [hcx]; exact hi0)
    have hgx1 := frame_gen_getD x (B + O) B (i + 1) (by rw [hcx]; exact hi1)
    show ((List.zip (frame_gen y ((B + O) * sps) (B * sps))
        (frame_gen x (B + O) B)).getD i ([], [])).2.drop B =
      ((List.zip (frame_gen y ((B + O) * sps) (B * sps))
        (frame_gen x (B + O) B)).getD (i + 1) ([], [])).2.take O
    rw [hz0, hz1]
    show ((frame_gen x (B + O) B).getD i []).drop B =
      ((frame_gen x (B + O) B).getD (i + 1) []).take O
    rw [hgx0, hgx1]
    rw [List.drop_take, List.drop_drop, List.take_take]
    have e1 : i * B + B = (i + 1) * B := by ring
    have e2 : B + O - B = O := by omega
    rw [e1, e2]
    congr 1
    omega

/-- Witness for C3: L = 13, B = 3, O = 4, sps = 2 gives 3 batches, with
target windows of length 7. -/
theorem get_train_batch_spec_witness :
    (get_train_batch ⟨List.replicate 26 [(0 : ℝ)], List.replicate 13 [(0 : ℝ)], 0⟩
        3 4 2).1 = 3
    ∧ ((get_train_batch ⟨List.replicate 26 [(0 : ℝ)], List.replicate 13 [(0 : ℝ)], 0⟩
        3 4 2).2.getD 0 ([], [])).2.length = 7 := by
  have h := get_train_batch_spec (List.replicate 26 [(0 : ℝ)])
    (List.replicate 13 [(0 : ℝ)]) 0 3 4 2 (by norm_num) (by norm_num)
    (by simp)
  refine ⟨h.1.trans (by norm_num), ?_⟩
  have h2 := (h.2.2.1 0 (by norm_num)).2
  simpa using h2

/-! ### Training-loop emission count (claim C4) -/

theorem trainLoop_length {V C S OS : Type} [Add V] (vag : ValueAndGrad V S)
    (module : ModuleF V C S) (optimizer : Optimizer V OS) (sparams : Dict V)
    (const : C) (draws : ℕ → Draws) :
    ∀ (batches : List (Mat × Mat)) (i n : ℕ) (aux : Dict Mat) (os : OS) (st : S)
      (params : Dict V),
      (trainLoop vag module optimizer sparams const draws i n batches aux os st
        params).length = min (n - i) batches.length := by
  intro batches
  induction batches with
  | nil =>
    intro i n aux os st params
    simp [trainLoop]
  | cons b rest ih =>
    intro i n aux os st params
    obtain ⟨y, x⟩ := b
    by_cases h : n ≤ i
    · simp only [trainLoop, if_pos h, List.length_nil, List.length_cons]
      omega
    · simp only [trainLoop, if_neg h, List.length_cons, ih]
      omega

/-- Claim C4: the train generator emits exactly
`min n_iter available_batches` progress tuples (`available_batches` when
`n_iter` is `None`), one `(loss, params, module_state)` tuple per
processed batch; when the signal is shorter than one window
(`L < O + B`) it emits zero tuples (and, being a total function, completes
without error). -/
theorem train_emission_count {V C S OS : Type} [Add V] (vag : ValueAndGrad V S)
    (model : ModelT V C S) (data : Input) (B : ℕ) (n_iter : Option ℕ)
    (opt : Optimizer V OS) (draws : ℕ → Draws)
    (hlen : data.y.length = 2 * data.x.length) :
    ((train vag model data B n_iter opt draws).length =
      match n_iter with
      | none => (get_train_batch data B model.overlaps.toNat 2).1
      | some k => min k (get_train_batch data B model.overlaps.toNat 2).1)
    ∧ (data.x.length < model.overlaps.toNat + B →
        (train vag model data B n_iter opt draws).length = 0) := by
  have hy : frame_count data.y.length ((B + model.overlaps.toNat) * 2) (B * 2) =
      frame_count data.x.length (B + model.overlaps.toNat) B := by
    rw [hlen]
    exact frame_count_scale _ _ _ 2 (by norm_num)
  have hbl : (get_train_batch data B model.overlaps.toNat 2).2.length =
      (get_train_batch data B model.overlaps.toNat 2).1 := by
    show (List.zip (frame_gen data.y ((B + model.overlaps.toNat) * 2) (B * 2))
      (frame_gen data.x (B + model.overlaps.toNat) B)).length =
      frame_count data.x.length (B + model.overlaps.toNat) B
    rw [List.length_zip, frame_gen_length, frame_gen_length, hy, min_self]
  have hmain : (train vag model data B n_iter opt draws).length =
      match n_iter with
      | none => (get_train_batch data B model.overlaps.toNat 2).1
      | some k => min k (get_train_batch data B model.overlaps.toNat 2).1 := by
    simp only [train]
    rw [trainLoop_length, Nat.sub_zero, hbl]
    cases n_iter with
    | none => exact min_self _
    | some k => rw [min_assoc, min_self]
  refine ⟨hmain, ?_⟩
  intro hshort
  have h0 : (get_train_batch data B model.overlaps.toNat 2).1 = 0 := by
    show frame_count data.x.length (B + model.overlaps.toNat) B = 0
    unfold frame_count
    rw [if_neg]
    omega
  rw [hmain, h0]
  cases n_iter with
  | none => rfl
  | some k => exact Nat.min_zero k

/-- Witness for C4: 4 available batches (L = 4, B = 1, O = 0), requested
n_iter = 2, so exactly 2 progress tuples are emitted. -/
theorem train_emission_count_witness :
    (train cexVag cexModel9 cexData4 1 (some 2) cexOpt cexDraws).length = 2 := by
  have h := (train_emission_count cexVag cexModel9 cexData4 1 (some 2) cexOpt
    cexDraws (by norm_num [cexData4])).1
  rw [h]
  rfl

/-! ### Static-parameter preservation (claim C6) -/

theorem lookup_append_of_keys_ne {V : Type} (a b : Dict V) (k : String)
    (h : ∀ kv ∈ a, kv.1 ≠ k) : List.lookup k (a ++ b) = List.lookup k b := by
  induction a with
  | nil => rfl
  | cons kv rest ih =>
    obtain ⟨k', v⟩ := kv
    have hne : k ≠ k' := fun he => (h (k', v) (by simp)) (by simp [he])
    have hb : (k == k') = false := beq_eq_false_iff_ne.mpr hne
    simp only [List.cons_append, List.lookup, hb]
    exact ih (fun kv hkv => h kv (by simp [hkv]))

theorem lookup_filter_mem {V : Type} (d : Dict V) (keys : List String) (k : String)
    (hk : k ∈ keys) :
    List.lookup k (d.filter (fun kv => kv.1 ∈ keys)) = List.lookup k d := by
  induction d with
  | nil => rfl
  | cons kv rest ih =>
    obtain ⟨k', v⟩ := kv
    by_cases hmem : k' ∈ keys
    · rw [List.filter_cons_of_pos (by simpa using hmem)]
      simp only [List.lookup]
      cases k == k' <;> simp [ih]
    · rw [List.filter_cons_of_neg (by simpa using hmem)]
      have hne : (k == k') = false :=
        beq_eq_false_iff_ne.mpr (fun he => hmem (he ▸ hk))
      simp only [List.lookup, hne]
      exact ih

theorem apply_updates_keys {V : Type} [Add V] (params updates : Dict V) :
    (apply_updates params updates).map Prod.fst = params.map Prod.fst := by
  unfold apply_updates
  rw [List.map_map]
  apply List.map_congr_left
  intro kv _
  cases h : updates.lookup kv.1 <;> simp [h]

theorem update_step_keys {V C S OS : Type} [Add V] (vag : ValueAndGrad V S)
    (module : ModuleF V C S) (optimizer : Optimizer V OS) (os : OS)
    (params : Dict V) (mstate : S) (y x : Mat) (aux : Dict Mat) (const : C)
    (sparams : Dict V) (dw : Draws) :
    (update_step vag module optimizer os params mstate y x aux const sparams
      dw).2.2.2.map Prod.fst = params.map Prod.fst :=
  apply_updates_keys _ _

theorem trainLoop_params_keys {V C S OS : Type} [Add V] (vag : ValueAndGrad V S)
    (module : ModuleF V C S) (optimizer : Optimizer V OS) (sparams : Dict V)
    (const : C) (draws : ℕ → Draws) :
    ∀ (batches : List (Mat × Mat)) (i n : ℕ) (aux : Dict Mat) (os : OS) (st : S)
      (params : Dict V) (out : ℝ × Dict V × S),
      out ∈ trainLoop vag module optimizer sparams const draws i n batches aux
        os st params →
      out.2.1.map Prod.fst = params.map Prod.fst := by
  intro batches
  induction batches with
  | nil =>
    intro i n aux os st params out hmem
    simp [trainLoop] at hmem
  | cons b rest ih =>
    intro i n aux os st params out hmem
    obtain ⟨y, x⟩ := b
    by_cases h : n ≤ i
    · simp [trainLoop, if_pos h] at hmem
    · simp only [trainLoop, if_neg h] at hmem
      rcases List.mem_cons.mp hmem with heq | hmem'
      · rw [heq]
        exact update_step_keys vag module optimizer os params st y x
          (dict_replace aux "truth" x) const sparams (draws i)
      · exact (ih _ _ _ _ _ _ out hmem').trans
          (update_step_keys vag module optimizer os params st y x
            (dict_replace aux "truth" x) const sparams (draws i))

theorem train_out_params_keys {V C S OS : Type} [Add V] (vag : ValueAndGrad V S)
    (model : ModelT V C S) (data : Input) (B : ℕ) (n_iter : Option ℕ)
    (opt : Optimizer V OS) (draws : ℕ → Draws) :
    ∀ out ∈ train vag model data B n_iter opt draws,
      out.2.1.map Prod.fst = model.initvar.1.map Prod.fst := by
  intro out ho
  simp only [train] at ho
  exact trainLoop_params_keys vag model.module opt model.initvar.2.2.2.2
    model.initvar.2.2.2.1 draws _ _ _ _ _ _ _ out ho

theorem getD_prop {α : Type} (l : List α) (i : ℕ) (d : α) (P : α → Prop)
    (hl : ∀ o ∈ l, P o) (hd : P d) : P (l.getD i d) := by
  by_cases h : i < l.length
  · rw [List.getD_eq_getElem _ _ h]
    exact hl _ (List.getElem_mem h)
  · rw [List.getD_eq_default _ _ (by omega)]
    exact hd

/-- Claim C6: after any number of training iterations, every parameter
whose key was marked static at model initialization is bit-identical to
its value in the initial full parameter dict: the optimizer update touches
only the trainable subset, static params are only merged into a read-only
view, and so looking the static key up in the merged view of any emitted
params equals looking it up in the initial snapshot. -/
theorem train_static_params {V C S OS : Type} [Add V] (vag : ValueAndGrad V S)
    (module : ModuleF V C S) (v0params : Dict V) (flatkeys : List String)
    (st0 : S) (aux0 : Dict Mat) (const0 : C) (ol : ℤ) (nm : String)
    (data : Input) (B : ℕ) (n_iter : Option ℕ) (opt : Optimizer V OS)
    (draws : ℕ → Draws) (k : String) (i : ℕ) (model : ModelT V C S)
    (hmodel : model = ⟨module, ((dict_split v0params flatkeys).2, st0, aux0,
      const0, (dict_split v0params flatkeys).1), ol, nm⟩)
    (hk : k ∈ flatkeys) :
    List.lookup k (dict_merge
      ((train vag model data B n_iter opt draws).getD i
        (0, (dict_split v0params flatkeys).2, st0)).2.1
      (dict_split v0params flatkeys).1) = List.lookup k v0params := by
  subst hmodel
  have h_p0 : ∀ kv ∈ (dict_split v0params flatkeys).2, kv.1 ≠ k := by
    intro kv hkv he
    have hf := List.of_mem_filter hkv
    simp only [decide_not, Bool.not_eq_true', decide_eq_false_iff_not] at hf
    exact hf (by rw [he]; exact hk)
  have hgd : (((train vag ⟨module, ((dict_split v0params flatkeys).2, st0, aux0,
        const0, (dict_split v0params flatkeys).1), ol, nm⟩ data B n_iter opt
        draws).getD i (0, (dict_split v0params flatkeys).2, st0)).2.1).map
        Prod.fst = ((dict_split v0params flatkeys).2).map Prod.fst :=
    getD_prop _ i _
      (fun o => o.2.1.map Prod.fst = ((dict_split v0params flatkeys).2).map Prod.fst)
      (fun o ho => train_out_params_keys vag _ data B n_iter opt draws o ho)
      rfl
  have hne : ∀ kv ∈ ((train vag ⟨module, ((dict_split v0params flatkeys).2, st0,
      aux0, const0, (dict_split v0params flatkeys).1), ol, nm⟩ data B n_iter opt
      draws).getD i (0, (dict_split v0params flatkeys).2, st0)).2.1,
      kv.1 ≠ k := by
    intro kv hkv
    have h1 := List.mem_map_of_mem Prod.fst hkv
    rw [hgd] at h1
    obtain ⟨kv', hkv', he⟩ := List.mem_map.mp h1
    exact he ▸ h_p0 kv' hkv'
  show List.lookup k (((train vag ⟨module, ((dict_split v0params flatkeys).2,
    st0, aux0, const0, (dict_split v0params flatkeys).1), ol, nm⟩ data B n_iter
    opt draws).getD i (0, (dict_split v0params flatkeys).2, st0)).2.1 ++
    (dict_split v0params flatkeys).1) = List.lookup k v0params
  rw [lookup_append_of_keys_ne _ _ _ hne]
  exact lookup_filter_mem v0params flatkeys k hk

/-- Witness for C6: static key "a" of `cexV0` still reads 5 through the
merged view of the first emitted params. -/
theorem train_static_params_witness :
    List.lookup "a" (dict_merge
      ((train cexVag cexModel6 cexData4 1 (some 1) cexOpt cexDraws).getD 0
        (0, (dict_split cexV0 ["a"]).2, 0)).2.1
      (dict_split cexV0 ["a"]).1) = List.lookup "a" cexV0 :=
  train_static_params cexVag cexModA cexV0 ["a"] 0 [] () 0 "M" cexData4 1
    (some 1) cexOpt cexDraws "a" 0 cexModel6 rfl (by decide)

/-! ### Cosine-similarity loss: bounds, rescaling, epsilon floor (claim C5) -/

theorem epsilon_pos : 0 < epsilon := by norm_num [epsilon]

theorem sqsum_nonneg (row : List ℝ) : 0 ≤ sqsum row := by
  apply List.sum_nonneg
  intro v hv
  obtain ⟨u, _, he⟩ := List.mem_map.mp hv
  rw [← he]
  exact sq_nonneg u

theorem maxeps_pos (row : List ℝ) : 0 < max (sqsum row) epsilon :=
  lt_of_lt_of_le epsilon_pos (le_max_right _ _)

theorem sqrt_maxeps_pos (row : List ℝ) :
    0 < Real.sqrt (max (sqsum row) epsilon) :=
  Real.sqrt_pos.mpr (maxeps_pos row)

theorem l2_normalize_eq_map (x : Mat) : l2_normalize x = x.map normRow := rfl

theorem sqsum_map_div (row : List ℝ) (n : ℝ) :
    sqsum (row.map (fun v => v / n)) = sqsum row / n ^ 2 := by
  unfold sqsum
  rw [List.map_map]
  have hcomp : ((fun v : ℝ => v ^ 2) ∘ fun v : ℝ => v / n) =
      fun v : ℝ => v ^ 2 * (n ^ 2)⁻¹ := by
    funext v
    rw [Function.comp_apply, div_pow, div_eq_mul_inv]
  rw [hcomp, List.sum_map_mul_right, div_eq_mul_inv]

theorem sqsum_normRow_le_one (row : List ℝ) : sqsum (normRow row) ≤ 1 := by
  unfold normRow
  rw [sqsum_map_div, Real.sq_sqrt (maxeps_pos row).le]
  exact (div_le_one (maxeps_pos row)).mpr (le_max_left _ _)

theorem sum_map_eq_range (f : ℝ → ℝ) (l : List ℝ) :
    (l.map f).sum = ∑ j in Finset.range l.length, f (l.getD j 0) := by
  induction l with
  | nil => simp
  | cons a l ih =>
    rw [List.map_cons, List.sum_cons, ih, List.length_cons,
      Finset.sum_range_succ']
    simp [add_comm]

theorem dot_eq_range (a b : List ℝ) :
    (List.zipWith (fun u v => u * v) a b).sum =
      ∑ j in Finset.range (min a.length b.length), a.getD j 0 * b.getD j 0 := by
  induction a generalizing b with
  | nil => simp
  | cons x xs ih =>
    cases b with
    | nil => simp
    | cons y ys =>
      rw [List.zipWith_cons_cons, List.sum_cons, ih, List.length_cons,
        List.length_cons, Nat.succ_min_succ, Finset.sum_range_succ']
      simp [add_comm]

theorem dot_sq_le (a b : List ℝ) :
    ((List.zipWith (fun u v => u * v) a b).sum) ^ 2 ≤ sqsum a * sqsum b := by
  rw [dot_eq_range]
  have hCS := Finset.sum_mul_sq_le_sq_mul_sq (Finset.range (min a.length b.length))
    (fun j => a.getD j 0) (fun j => b.getD j 0)
  have hsub : Finset.range (min a.length b.length) ⊆ Finset.range a.length :=
    Finset.range_subset.mpr (min_le_left _ _)
  have hsub' : Finset.range (min a.length b.length) ⊆ Finset.range b.length :=
    Finset.range_subset.mpr (min_le_right _ _)
  have hA : ∑ j in Finset.range (min a.length b.length), (a.getD j 0) ^ 2 ≤ sqsum a := by
    rw [show sqsum a = (a.map (fun v => v ^ 2)).sum from rfl, sum_map_eq_range]
    exact Finset.sum_le_sum_of_subset_of_nonneg hsub (fun i _ _ => sq_nonneg _)
  have hB : ∑ j in Finset.range (min a.length b.length), (b.getD j 0) ^ 2 ≤ sqsum b := by
    rw [show sqsum b = (b.map (fun v => v ^ 2)).sum from rfl, sum_map_eq_range]
    exact Finset.sum_le_sum_of_subset_of_nonneg hsub' (fun i _ _ => sq_nonneg _)
  exact hCS.trans (mul_le_mul hA hB (Finset.sum_nonneg (fun i _ => sq_nonneg _))
    (sqsum_nonneg a))

theorem mem_zipWith {α β γ : Type} (f : α → β → γ) :
    ∀ (a : List α) (b : List β) (x : γ), x ∈ List.zipWith f a b →
      ∃ u v, u ∈ a ∧ v ∈ b ∧ x = f u v := by
  intro a
  induction a with
  | nil =>
    intro b x h
    simp at h
  | cons u us ih =>
    intro b x h
    cases b with
    | nil => simp at h
    | cons v vs =>
      rw [List.zipWith_cons_cons] at h
      rcases List.mem_cons.mp h with he | hm
      · exact ⟨u, v, by simp, by simp, he⟩
      · obtain ⟨u', v', hu, hv, he⟩ := ih vs x hm
        exact ⟨u', v', by simp [hu], by simp [hv], he⟩

theorem normRow_dot_bound (pr zr : List ℝ) :
    |(List.zipWith (fun a b => a * b) (normRow pr) (normRow zr)).sum| ≤ 1 := by
  have h := dot_sq_le (normRow pr) (normRow zr)
  have hsq : ((List.zipWith (fun u v => u * v) (normRow pr) (normRow zr)).sum) ^ 2 ≤ 1 :=
    h.trans (mul_le_one₀ (sqsum_normRow_le_one pr) (sqsum_nonneg _)
      (sqsum_normRow_le_one zr))
  exact (sq_le_one_iff_abs_le_one _).mp hsq

theorem sum_abs_le_length (l : List ℝ) (h : ∀ v ∈ l, |v| ≤ 1) :
    |l.sum| ≤ (l.length : ℝ) := by
  induction l with
  | nil => simp
  | cons a l ih =>
    rw [List.sum_cons, List.length_cons]
    have ha : |a| ≤ 1 := h a (by simp)
    have hl : |l.sum| ≤ (l.length : ℝ) := ih (fun v hv => h v (by simp [hv]))
    calc |a + l.sum| ≤ |a| + |l.sum| := abs_add _ _
      _ ≤ 1 + l.length := by linarith
      _ = ((l.length + 1 : ℕ) : ℝ) := by push_cast; ring

theorem ncs_bounds (p z : Mat) :
    -1 ≤ negative_cosine_similarity p z ∧ negative_cosine_similarity p z ≤ 1 := by
  have hmem : ∀ x ∈ List.zipWith
      (fun pr zr => (List.zipWith (fun a b => a * b) pr zr).sum)
      (l2_normalize p) (l2_normalize z), |x| ≤ 1 := by
    intro x hx
    obtain ⟨u, v, hu, hv, he⟩ := mem_zipWith _ _ _ x hx
    rw [l2_normalize_eq_map] at hu hv
    obtain ⟨pr, _, hu'⟩ := List.mem_map.mp hu
    obtain ⟨zr, _, hv'⟩ := List.mem_map.mp hv
    rw [he, ← hu', ← hv']
    exact normRow_dot_bound pr zr
  have habs : |listMean (List.zipWith
      (fun pr zr => (List.zipWith (fun a b => a * b) pr zr).sum)
      (l2_normalize p) (l2_normalize z))| ≤ 1 := by
    set dots := List.zipWith
      (fun pr zr => (List.zipWith (fun a b => a * b) pr zr).sum)
      (l2_normalize p) (l2_normalize z) with hdots
    by_cases hnil : dots = []
    · simp [listMean, hnil]
    · have hlen : 0 < (dots.length : ℝ) := by
        have := List.length_pos.mpr hnil
        exact_mod_cast this
      have hs := sum_abs_le_length dots hmem
      rw [listMean, abs_div, abs_of_nonneg hlen.le]
      exact (div_le_one hlen).mpr hs
  have hb := abs_le.mp habs
  constructor
  · show -1 ≤ -(listMean (List.zipWith
      (fun pr zr => (List.zipWith (fun a b => a * b) pr zr).sum)
      (l2_normalize p) (l2_normalize z)))
    linarith [hb.2]
  · show -(listMean (List.zipWith
      (fun pr zr => (List.zipWith (fun a b => a * b) pr zr).sum)
      (l2_normalize p) (l2_normalize z))) ≤ 1
    linarith [hb.1]

theorem normRow_smul (row : List ℝ) (c : ℝ) (hc : 0 < c)
    (h1 : epsilon ≤ sqsum row) (h2 : epsilon ≤ c ^ 2 * sqsum row) :
    normRow (row.map (fun v => c * v)) = normRow row := by
  unfold normRow
  have hs : sqsum (row.map (fun v => c * v)) = c ^ 2 * sqsum row := by
    unfold sqsum
    rw [List.map_map]
    have hcomp : ((fun v : ℝ => v ^ 2) ∘ fun v : ℝ => c * v) =
        fun v : ℝ => c ^ 2 * ((fun u : ℝ => u ^ 2) v) := by
      funext v
      rw [Function.comp_apply, mul_pow]
    rw [hcomp, List.sum_map_mul_left]
  rw [List.map_map, hs, max_eq_left h2, max_eq_left h1]
  have hsqrt : Real.sqrt (c ^ 2 * sqsum row) = c * Real.sqrt (sqsum row) := by
    rw [Real.sqrt_mul (sq_nonneg c), Real.sqrt_sq hc.le]
  rw [hsqrt]
  apply List.map_congr_left
  intro v _
  rw [Function.comp_apply]
  exact mul_div_mul_left v _ (ne_of_gt hc)

theorem l2_scaleRow (p : Mat) (i : ℕ) (c : ℝ) (hc : 0 < c)
    (h1 : epsilon ≤ sqsum (p.getD i []))
    (h2 : epsilon ≤ c ^ 2 * sqsum (p.getD i [])) :
    l2_normalize (scaleRow p i c) = l2_normalize p := by
  induction p generalizing i with
  | nil => rfl
  | cons row rest ih =>
    cases i with
    | zero =>
      rw [List.getD_cons_zero] at h1 h2
      show List.map normRow ((row.map (fun v => c * v)) :: rest) =
        List.map normRow (row :: rest)
      rw [List.map_cons, List.map_cons, normRow_smul row c hc h1 h2]
    | succ j =>
      rw [List.getD_cons_succ] at h1 h2
      show List.map normRow (row :: scaleRow rest j c) =
        List.map normRow (row :: rest)
      rw [List.map_cons, List.map_cons]
      have hrec := ih j h1 h2
      rw [l2_normalize_eq_map, l2_normalize_eq_map] at hrec
      rw [hrec]

theorem ncs_scaleRow_left (p z : Mat) (i : ℕ) (c : ℝ) (hc : 0 < c)
    (h1 : epsilon ≤ sqsum (p.getD i []))
    (h2 : epsilon ≤ c ^ 2 * sqsum (p.getD i [])) :
    negative_cosine_similarity (scaleRow p i c) z =
      negative_cosine_similarity p z := by
  show -(listMean (List.zipWith (fun pr zr => (List.zipWith (fun a b => a * b) pr zr).sum)
      (l2_normalize (scaleRow p i c)) (l2_normalize z))) =
    -(listMean (List.zipWith (fun pr zr => (List.zipWith (fun a b => a * b) pr zr).sum)
      (l2_normalize p) (l2_normalize z)))
  rw [l2_scaleRow p i c hc h1 h2]

/-- Claim C5 (amended): for *every* pair of matrices the loss lies in
[-1, 1] and every row's normalizing denominator (of either input) is
strictly positive (epsilon floor, so an all-zero row never divides by
zero) — both unconditionally; rescaling a single row of one input by a
positive scalar leaves the loss unchanged *provided* that row's squared
sum and its rescaled squared sum are both at least epsilon (below the
epsilon floor the source's `maximum(square_sum, eps)` freezes the
denominator and rescaling does change the loss). -/
theorem negative_cosine_similarity_props (p z : Mat) (i : ℕ) (c : ℝ) :
    (0 < c → epsilon ≤ sqsum (p.getD i []) →
      epsilon ≤ c ^ 2 * sqsum (p.getD i []) →
      negative_cosine_similarity (scaleRow p i c) z = negative_cosine_similarity p z)
    ∧ (0 < c → epsilon ≤ sqsum (z.getD i []) →
      epsilon ≤ c ^ 2 * sqsum (z.getD i []) →
      negative_cosine_similarity p (scaleRow z i c) = negative_cosine_similarity p z)
    ∧ (-1 ≤ negative_cosine_similarity p z)
    ∧ (negative_cosine_similarity p z ≤ 1)
    ∧ (∀ j, 0 < Real.sqrt (max (sqsum (p.getD j [])) epsilon))
    ∧ (∀ j, 0 < Real.sqrt (max (sqsum (z.getD j [])) epsilon)) := by
  refine ⟨fun hc hp1 hp2 => ncs_scaleRow_left p z i c hc hp1 hp2,
    fun hc hz1 hz2 => ?_, (ncs_bounds p z).1, (ncs_bounds p z).2,
    fun j => sqrt_maxeps_pos _, fun j => sqrt_maxeps_pos _⟩
  rw [ncs_comm p (scaleRow z i c), ncs_comm p z]
  exact ncs_scaleRow_left z p i c hc hz1 hz2

/-- Witness for C5 (amended): at rows [3,4] and [6,8], c = 2 (squared sums
far above epsilon) rescaling is invariant and the loss is bounded; and at
the all-zero batch-size-1 input `p = [[0]]` the bounds and the strictly
positive denominator hold as well. -/
theorem negative_cosine_similarity_props_witness :
    (negative_cosine_similarity (scaleRow [[(3 : ℝ), 4]] 0 2) [[(6 : ℝ), 8]] =
      negative_cosine_similarity [[(3 : ℝ), 4]] [[(6 : ℝ), 8]])
    ∧ (-1 ≤ negative_cosine_similarity [[(3 : ℝ), 4]] [[(6 : ℝ), 8]])
    ∧ (negative_cosine_similarity [[(3 : ℝ), 4]] [[(6 : ℝ), 8]] ≤ 1)
    ∧ (-1 ≤ negative_cosine_similarity [[(0 : ℝ)]] [[(1 : ℝ)]])
    ∧ (negative_cosine_similarity [[(0 : ℝ)]] [[(1 : ℝ)]] ≤ 1)
    ∧ (0 < Real.sqrt (max (sqsum (([[(0 : ℝ)]] : Mat).getD 0 [])) epsilon)) := by
  have h := negative_cosine_similarity_props [[(3 : ℝ), 4]] [[(6 : ℝ), 8]] 0 2
  have h0 := negative_cosine_similarity_props [[(0 : ℝ)]] [[(1 : ℝ)]] 0 1
  exact ⟨h.1 (by norm_num) (by norm_num [sqsum, epsilon])
      (by norm_num [sqsum, epsilon]),
    h.2.2.1, h.2.2.2.1, h0.2.2.1, h0.2.2.2.1, h0.2.2.2.2.1 0⟩

theorem ncs_small_single (a : ℝ) (ha : a ^ 2 ≤ epsilon) :
    negative_cosine_similarity [[a]] [[(1 : ℝ)]] = -(a / 1e-6) := by
  have hsq : sqsum [a] = a ^ 2 := by simp [sqsum]
  have h1 : sqsum [(1 : ℝ)] = 1 := by simp [sqsum]
  have hmax : max (sqsum [a]) epsilon = epsilon := by
    rw [hsq]
    exact max_eq_right ha
  have hmax1 : max (sqsum [(1 : ℝ)]) epsilon = 1 := by
    rw [h1]
    exact max_eq_left (by norm_num [epsilon])
  have h6 : Real.sqrt epsilon = 1e-6 := by
    rw [show epsilon = (1e-6 : ℝ) ^ 2 by norm_num [epsilon]]
    exact Real.sqrt_sq (by norm_num)
  have e1 : l2_normalize [[a]] = [[a / 1e-6]] := by
    rw [l2_normalize_eq_map]
    show [normRow [a]] = [[a / 1e-6]]
    unfold normRow
    rw [hmax, h6]
    simp
  have e2 : l2_normalize [[(1 : ℝ)]] = [[(1 : ℝ)]] := by
    rw [l2_normalize_eq_map]
    show [normRow [(1 : ℝ)]] = [[(1 : ℝ)]]
    unfold normRow
    rw [hmax1, Real.sqrt_one]
    simp
  show -(listMean (List.zipWith (fun pr zr => (List.zipWith (fun a b => a * b) pr zr).sum)
      (l2_normalize [[a]]) (l2_normalize [[(1 : ℝ)]]))) = -(a / 1e-6)
  rw [e1, e2]
  simp [listMean]

/-- Counterexample to C5 as stated: with the all-but-zero row [1e-10]
(squared sum 1e-20, below epsilon = 1e-12), multiplying the row of `p` by
the positive scalar 2 *changes* the loss (-1e-4 becomes -2e-4), because
the epsilon-floored denominator no longer rescales with the row. -/
theorem negative_cosine_similarity_scale_cex :
    (0 : ℝ) < 2
    ∧ scaleRow [[(1e-10 : ℝ)]] 0 2 = [[(2e-10 : ℝ)]]
    ∧ negative_cosine_similarity (scaleRow [[(1e-10 : ℝ)]] 0 2) [[(1 : ℝ)]] ≠
        negative_cosine_similarity [[(1e-10 : ℝ)]] [[(1 : ℝ)]] := by
  have hscale : scaleRow [[(1e-10 : ℝ)]] 0 2 = [[(2e-10 : ℝ)]] := by
    show [[(1e-10 : ℝ)].map (fun v => 2 * v)] = [[(2e-10 : ℝ)]]
    norm_num
  refine ⟨by norm_num, hscale, ?_⟩
  rw [hscale, ncs_small_single (2e-10) (by norm_num [epsilon]),
    ncs_small_single (1e-10) (by norm_num [epsilon])]
  norm_num

/-! ### Gradient flow through the second augmented view (claim C1) -/

theorem sqrt_twentyfive : Real.sqrt 25 = 5 := by
  rw [show (25 : ℝ) = 5 ^ 2 by norm_num]
  exact Real.sqrt_sq (by norm_num)

/-- Claim C1 (evaluation of the code at the failing input): with zero
tangent on the original and first augmented view's outputs, and unit
tangent (from a parameter reachable only through the second augmented
view) on one component of the second view's output, the tangent of the
loss computed by the source's lines 202-209 is 21/625, not 0: the
stop-gradient result `z_transformed1_real1` is bound but never used, and
`negative_cosine_similarity` receives the *non-detached*
`z_transformed_real1`. -/
theorem loss_fn_tail_grad_leak :
    (∀ row ∈ cexZO, ∀ d ∈ row, d.t = 0)
    ∧ (∀ row ∈ cexZT, ∀ d ∈ row, d.t = 0)
    ∧ (loss_fn_tail cexZO cexZT cexZT1).t = 21 / 625
    ∧ (21 : ℝ) / 625 ≠ 0 := by
  refine ⟨?_, ?_, ?_, by norm_num⟩
  · intro row hrow d hd
    simp only [cexZO, List.mem_singleton] at hrow
    subst hrow
    simp only [List.mem_cons, List.not_mem_nil, or_false] at hd
    rcases hd with h | h <;> simp [h]
  · intro row hrow d hd
    simp only [cexZT, List.mem_singleton] at hrow
    subst hrow
    simp only [List.mem_cons, List.not_mem_nil, or_false] at hd
    rcases hd with h | h <;> simp [h]
  · norm_num [loss_fn_tail, matDabs, matDstop, dnegative_cosine_similarity,
      dl2_normalize, dabs, dsign, dsquare, dsum, dmaximum, dsqrt, ddiv, dmul,
      dmean, dneg, dstop_gradient, cexZO, cexZT, cexZT1, epsilon,
      sqrt_twentyfive]
